import Mathlib

/-!
Shallow embedding of `docs/decode_capture.py`: the HID-capture buffer
reassembler (`reconstruct_data`), the firmware-code extractor
(`get_firmware_code`), the capture-line selector (`parse_buffers`) and the
KB.ini key-catalog loader (`parse_kb_ini`).  Bytes are `Nat` (values 0..255
in well-formed inputs), text lines are `List Char`, and Python exceptions
are the `Except.error` branch.
-/

/-- Header length of the report at position `i`, as classified by the
branching at the top of `reconstruct_data`: position 0 has a 5-byte header
when `buf[3] == 0x01 and buf[4] == 0xf8`, a 4-byte header when
`buf[3] == 0xf8`, and otherwise falls back to 3 bytes; positions 1-8 always
have a 3-byte header.  Out-of-range byte reads default to 0 (all claims are
about 65-byte reports, where every inspected index is in range). -/
def header_len (i : Nat) (buf : List Nat) : Nat :=
  if i = 0 then
    if buf.getD 3 0 = 0x01 ∧ buf.getD 4 0 = 0xf8 then 5
    else if buf.getD 3 0 = 0xf8 then 4
    else 3
  else 3

/-- Payload of the report at position `i`: the bytes after its header
(`full_data.extend(buf[k:])` in the source). -/
def report_payload (i : Nat) (buf : List Nat) : List Nat :=
  buf.drop (header_len i buf)

/-- Diagnostic emitted for the report at position `i`: the source prints
`Unknown buffer 0 format: {buf[:5].hex()}` exactly when position-0's header
matches neither known variant.  We record the five leading bytes shown. -/
def report_diag (i : Nat) (buf : List Nat) : List (List Nat) :=
  if i = 0 ∧ ¬(buf.getD 3 0 = 0x01 ∧ buf.getD 4 0 = 0xf8) ∧ buf.getD 3 0 ≠ 0xf8 then
    [buf.take 5]
  else []

/-- The `for i, buf in enumerate(buffers)` loop of `reconstruct_data`,
accumulating the concatenated payloads and the diagnostics. -/
def reconstruct_go : Nat → List (List Nat) → List Nat × List (List Nat)
  | _, [] => ([], [])
  | i, buf :: rest =>
    let r := reconstruct_go (i + 1) rest
    (report_payload i buf ++ r.1, report_diag i buf ++ r.2)

/-- `reconstruct_data(buffers)`: concatenates every report's payload in
position order; also returns the diagnostics the source would print. -/
def reconstruct_data (buffers : List (List Nat)) : List Nat × List (List Nat) :=
  reconstruct_go 0 buffers

/-- `get_firmware_code(data, bindex)`: guard `offset + 4 > len(data)` returns
`None`; otherwise the 4 bytes at `offset = bindex * 4` are composed as
`(b[0] << 24) | (b[1] << 16) | (b[2] << 8) | b[3]`. -/
def get_firmware_code (data : List Nat) (bindex : Nat) : Option Nat :=
  if bindex * 4 + 4 > data.length then none
  else
    some ((data.getD (bindex * 4) 0) <<< 24 ||| (data.getD (bindex * 4 + 1) 0) <<< 16 |||
      (data.getD (bindex * 4 + 2) 0) <<< 8 ||| data.getD (bindex * 4 + 3) 0)

/-- Byte order for firmware-code composition, as the specification's
section 4.2 demands it be a caller-supplied parameter. -/
inductive ByteOrder where
  | big
  | little

/-- Extractor as the specification's section 4.2 words it (for comparison
with the source's `get_firmware_code`): `offset = index * 4`; out of range
returns `NotAvailable`; otherwise the 4 bytes at the offset are composed per
the requested byte order, big-endian making byte 0 the most significant
octet and little-endian making byte 0 the least significant octet. -/
def extract_spec (order : ByteOrder) (blob : List Nat) (index : Nat) : Option Nat :=
  if index * 4 + 4 > blob.length then none
  else
    match order with
    | ByteOrder.big =>
      some ((blob.getD (index * 4) 0) <<< 24 ||| (blob.getD (index * 4 + 1) 0) <<< 16 |||
        (blob.getD (index * 4 + 2) 0) <<< 8 ||| blob.getD (index * 4 + 3) 0)
    | ByteOrder.little =>
      some ((blob.getD (index * 4 + 3) 0) <<< 24 ||| (blob.getD (index * 4 + 2) 0) <<< 16 |||
        (blob.getD (index * 4 + 1) 0) <<< 8 ||| blob.getD (index * 4) 0)

/-- Python slice-endpoint resolution for a list of length `len`: a negative
index counts from the end (clamped below at 0), a non-negative index is
clamped above at `len`. -/
def pySliceIdx (len : Nat) (i : Int) : Nat :=
  if i < 0 then ((len : Int) + i).toNat else min i.toNat len

/-- Python slice `data[lo:hi]`. -/
def pySlice (data : List Nat) (lo hi : Int) : List Nat :=
  (data.take (pySliceIdx data.length hi)).drop (pySliceIdx data.length lo)

/-- `get_firmware_code` over a Python `int` index, keeping the source's
slice-then-subscript shape: `b = data[offset:offset+4]` never fails, but the
subsequent `b[0] .. b[3]` subscripts raise `IndexError` (the `Except.error`
branch) when the slice came back with fewer than 4 bytes. -/
def get_firmware_code_int (data : List Nat) (bindex : Int) : Except Unit (Option Nat) :=
  if bindex * 4 + 4 > (data.length : Int) then Except.ok none
  else
    match pySlice data (bindex * 4) (bindex * 4 + 4) with
    | b0 :: b1 :: b2 :: b3 :: _ =>
      Except.ok (some (b0 <<< 24 ||| b1 <<< 16 ||| b2 <<< 8 ||| b3))
    | _ => Except.error ()

/-- Python `str.strip()` whitespace test. -/
def isPySpace (c : Char) : Bool :=
  c == ' ' || c == '\t' || c == '\n' || c == '\r' || c == '\x0b' || c == '\x0c'

/-- Python `str.strip()`. -/
def pyStrip (cs : List Char) : List Char :=
  ((cs.dropWhile isPySpace).reverse.dropWhile isPySpace).reverse

/-- Value of one hexadecimal digit, as accepted by `bytes.fromhex`. -/
def hexDigitVal (c : Char) : Option Nat :=
  if '0' ≤ c ∧ c ≤ '9' then some (c.toNat - 48)
  else if 'a' ≤ c ∧ c ≤ 'f' then some (c.toNat - 87)
  else if 'A' ≤ c ∧ c ≤ 'F' then some (c.toNat - 55)
  else none

/-- `bytes.fromhex` on a space-free string: consecutive digit pairs become
bytes; an odd length or a non-hex character raises (here: `none`). -/
def hexDecode : List Char → Option (List Nat)
  | [] => some []
  | [_] => none
  | c1 :: c2 :: rest =>
    match hexDigitVal c1, hexDigitVal c2, hexDecode rest with
    | some h, some l, some bs => some ((h * 16 + l) :: bs)
    | _, _, _ => none

/-- The line-cleaning of `parse_buffers`: `l.strip().replace(' ', '')`. -/
def clean_line (l : List Char) : List Char :=
  (pyStrip l).filter (fun c => c != ' ')

/-- The nonempty, cleaned lines of the capture file
(`[l.strip().replace(' ', '') for l in f if l.strip()]`). -/
def capture_lines (ls : List (List Char)) : List (List Char) :=
  (ls.filter (fun l => !(pyStrip l).isEmpty)).map clean_line

/-- The qualifying buffer lines: cleaned lines starting with hex `0a09`. -/
def buffer_lines (ls : List (List Char)) : List (List Char) :=
  (capture_lines ls).filter (fun l => List.isPrefixOf ['0', 'a', '0', '9'] l)

/-- The list comprehension `[bytes.fromhex(line) for line in buffer_lines[:9]]`:
decodes each line in order, the first invalid line aborting the whole run. -/
def hexDecodeAll : List (List Char) → Option (List (List Nat))
  | [] => some []
  | l :: ls =>
    match hexDecode l, hexDecodeAll ls with
    | some b, some bs => some (b :: bs)
    | _, _ => none

/-- `parse_buffers`: hex-decodes the first 9 qualifying lines (a count other
than 9 only prints a warning); a line that is not valid hex raises
(`Except.error`). -/
def parse_buffers (ls : List (List Char)) : Except Unit (List (List Nat)) :=
  match hexDecodeAll ((buffer_lines ls).take 9) with
  | some bufs => Except.ok bufs
  | none => Except.error ()

/-- Decimal digit value for Python `int()`. -/
def charDigitVal (c : Char) : Option Nat :=
  if '0' ≤ c ∧ c ≤ '9' then some (c.toNat - 48) else none

/-- Digit-string accumulator for Python `int()`. -/
def digitsValGo : Nat → List Char → Option Nat
  | acc, [] => some acc
  | acc, c :: rest =>
    match charDigitVal c with
    | some d => digitsValGo (acc * 10 + d) rest
    | none => none

/-- Python `int(s)` on a decimal string: surrounding whitespace is stripped,
one optional sign is allowed, then a nonempty run of digits; anything else
raises `ValueError` (here: `none`). -/
def pyInt (cs : List Char) : Option Int :=
  match pyStrip cs with
  | [] => none
  | '-' :: rest =>
    if rest = [] then none else (digitsValGo 0 rest).map (fun n => -(n : Int))
  | '+' :: rest =>
    if rest = [] then none else (digitsValGo 0 rest).map (fun n => (n : Int))
  | s => (digitsValGo 0 s).map (fun n => (n : Int))

/-- One iteration of the `parse_kb_ini` line loop.  State: the
`in_key_section` flag and the accumulated `(key_name, vk_code, bindex)`
records.  A `[KEY]` line enters the section; any other `[`-led line leaves
it; lines outside the section or not starting with `K` or lacking `=` are
skipped; a value with at least 8 comma-separated fields has field 7 fed to
`int(...)`, whose failure propagates as `Except.error`. -/
def kb_step (st : Bool × List (List Char × List Char × Int)) (rawLine : List Char) :
    Except Unit (Bool × List (List Char × List Char × Int)) :=
  let line := pyStrip rawLine
  if line = String.toList "[KEY]" then Except.ok (true, st.2)
  else
    let inKey := if line.headD ' ' = '[' then false else st.1
    if ¬(inKey = true ∧ line.headD ' ' = 'K') then Except.ok (inKey, st.2)
    else if line.contains '=' = false then Except.ok (inKey, st.2)
    else
      let parts := ((line.dropWhile (fun c => ¬c = '=')).drop 1).splitOn ','
      if 8 ≤ parts.length then
        match pyInt (parts.getD 7 []) with
        | some bindex =>
          Except.ok (inKey,
            st.2 ++ [(line.takeWhile (fun c => ¬c = '='), pyStrip (parts.getD 5 []), bindex)])
        | none => Except.error ()
      else Except.ok (inKey, st.2)

/-- `parse_kb_ini(lines)`: folds `kb_step` over the file's lines starting
outside the `[KEY]` section with no records. -/
def parse_kb_ini (lines : List (List Char)) : Except Unit (List (List Char × List Char × Int)) :=
  (List.foldlM kb_step (false, []) lines).map (fun st => st.2)

/-- A catalog line the loader skips without effect on the record list:
its stripped text has no `=`, or the value part after the first `=` has
fewer than 8 comma-separated fields. -/
def kb_skippable (rawLine : List Char) : Bool :=
  !(pyStrip rawLine).contains '=' ||
    decide (((((pyStrip rawLine).dropWhile (fun c => ¬c = '=')).drop 1).splitOn ',').length < 8)

/-- The end-to-end scenario input of the specification's section 8: buffer 0
is `0a 09 01 f8` followed by 60 filler bytes (first four `11 22 33 44`), and
buffers 1-8 are `0a 09` plus a position byte plus 62 filler bytes. -/
def scenario_buffers : List (List Nat) :=
  [[0x0a, 0x09, 0x01, 0xf8] ++ ([0x11, 0x22, 0x33, 0x44] ++ List.replicate 56 0x55),
   [0x0a, 0x09, 1] ++ List.replicate 62 0x66,
   [0x0a, 0x09, 2] ++ List.replicate 62 0x66,
   [0x0a, 0x09, 3] ++ List.replicate 62 0x66,
   [0x0a, 0x09, 4] ++ List.replicate 62 0x66,
   [0x0a, 0x09, 5] ++ List.replicate 62 0x66,
   [0x0a, 0x09, 6] ++ List.replicate 62 0x66,
   [0x0a, 0x09, 7] ++ List.replicate 62 0x66,
   [0x0a, 0x09, 8] ++ List.replicate 62 0x66]

/-! ### Helper lemmas -/

theorem header_len_pos (i : Nat) (buf : List Nat) (h : i ≠ 0) : header_len i buf = 3 := by
  simp [header_len, h]

theorem report_payload_pos (i : Nat) (buf : List Nat) (h : i ≠ 0) :
    report_payload i buf = buf.drop 3 := by
  simp [report_payload, header_len_pos i buf h]

theorem report_diag_pos (i : Nat) (buf : List Nat) (h : i ≠ 0) : report_diag i buf = [] := by
  simp [report_diag, h]

theorem reconstruct_go_pos (bs : List (List Nat)) :
    ∀ i, i ≠ 0 → reconstruct_go i bs = ((bs.map (fun b => b.drop 3)).flatten, []) := by
  induction bs with
  | nil => intro i _; rfl
  | cons b rest ih =>
    intro i h
    simp [reconstruct_go, report_payload_pos i b h, report_diag_pos i b h,
      ih (i + 1) (by omega)]

theorem getD_lt_of_all (data : List Nat) (h : ∀ b ∈ data, b < 256) :
    ∀ n, data.getD n 0 < 256 := by
  induction data with
  | nil => intro n; simp [List.getD]
  | cons a l ih =>
    intro n
    cases n with
    | zero => simpa using h a (by simp)
    | succ m =>
      rw [List.getD_cons_succ]
      exact ih (fun b hb => h b (by simp [hb])) m

theorem lor_lt_pow (x y n : Nat) (hx : x < 2 ^ n) (hy : y < 2 ^ n) : x ||| y < 2 ^ n :=
  Nat.bitwise_lt hx hy

theorem take_add_drop (l : List Nat) : ∀ (a n : Nat), (l.take (a + n)).drop a = (l.drop a).take n := by
  induction l with
  | nil => intro a n; simp
  | cons x xs ih =>
    intro a n
    cases a with
    | zero => simp
    | succ a' =>
      have harith : a' + 1 + n = (a' + n) + 1 := by omega
      rw [harith, List.take_succ_cons, List.drop_succ_cons, List.drop_succ_cons, ih a' n]

theorem getD_drop_add (l : List Nat) : ∀ (a j : Nat) (d : Nat),
    (l.drop a).getD j d = l.getD (a + j) d := by
  induction l with
  | nil => intro a j d; simp
  | cons x xs ih =>
    intro a j d
    cases a with
    | zero => simp
    | succ a' =>
      have harith : a' + 1 + j = (a' + j) + 1 := by omega
      rw [harith, List.drop_succ_cons, List.getD_cons_succ, ih a' j d]

theorem slice_four (l : List Nat) (a : Nat) (h : a + 4 ≤ l.length) :
    (l.take (a + 4)).drop a =
      [l.getD a 0, l.getD (a + 1) 0, l.getD (a + 2) 0, l.getD (a + 3) 0] := by
  rw [take_add_drop]
  have hlen : 4 ≤ (l.drop a).length := by rw [List.length_drop]; omega
  rcases hd : l.drop a with _ | ⟨b0, _ | ⟨b1, _ | ⟨b2, _ | ⟨b3, rest⟩⟩⟩⟩ <;>
    rw [hd] at hlen <;> simp at hlen
  have e0 : l.getD a 0 = b0 := by
    have := getD_drop_add l a 0 0
    rw [hd] at this; simpa using this.symm
  have e1 : l.getD (a + 1) 0 = b1 := by
    have := getD_drop_add l a 1 0
    rw [hd] at this; simpa using this.symm
  have e2 : l.getD (a + 2) 0 = b2 := by
    have := getD_drop_add l a 2 0
    rw [hd] at this; simpa using this.symm
  have e3 : l.getD (a + 3) 0 = b3 := by
    have := getD_drop_add l a 3 0
    rw [hd] at this; simpa using this.symm
  rw [e0, e1, e2, e3]
  rfl

theorem hexDecode_ok_bounded : ∀ (n : Nat) (cs : List Char), cs.length ≤ n →
    (∀ c ∈ cs, (hexDigitVal c).isSome) → cs.length % 2 = 0 →
    ∃ bs, hexDecode cs = some bs ∧ 2 * bs.length = cs.length := by
  intro n
  induction n with
  | zero =>
    intro cs hle _ _
    have : cs = [] := List.length_eq_zero.mp (by omega)
    subst this
    exact ⟨[], rfl, rfl⟩
  | succ n ih =>
    intro cs hle hhex heven
    rcases cs with _ | ⟨c1, _ | ⟨c2, rest⟩⟩
    · exact ⟨[], rfl, rfl⟩
    · simp at heven
    · have h1 : (hexDigitVal c1).isSome := hhex c1 (by simp)
      have h2 : (hexDigitVal c2).isSome := hhex c2 (by simp)
      obtain ⟨d1, hd1⟩ := Option.isSome_iff_exists.mp h1
      obtain ⟨d2, hd2⟩ := Option.isSome_iff_exists.mp h2
      have hrest : rest.length ≤ n := by simp at hle; omega
      obtain ⟨bs, hbs, hlen⟩ := ih rest hrest
        (fun c hc => hhex c (by simp [hc])) (by simp at heven ⊢; omega)
      refine ⟨(d1 * 16 + d2) :: bs, ?_, by simp; omega⟩
      simp [hexDecode, hd1, hd2, hbs]

theorem hexDecodeAll_ok : ∀ (L : List (List Char)),
    (∀ l ∈ L, l.length = 130 ∧ ∀ c ∈ l, (hexDigitVal c).isSome) →
    ∃ bufs, hexDecodeAll L = some bufs ∧ bufs.length = L.length ∧
      ∀ b ∈ bufs, b.length = 65 := by
  intro L
  induction L with
  | nil => intro _; exact ⟨[], rfl, rfl, by simp⟩
  | cons l L ih =>
    intro h
    obtain ⟨h130, hhex⟩ := h l (by simp)
    obtain ⟨bs, hbs, hblen⟩ :=
      hexDecode_ok_bounded l.length l le_rfl hhex (by omega)
    obtain ⟨bufs, hbufs, hlen, hall⟩ := ih (fun t ht => h t (by simp [ht]))
    refine ⟨bs :: bufs, ?_, by simp [hlen], ?_⟩
    · simp [hexDecodeAll, hbs, hbufs]
    · intro b hb
      rcases List.mem_cons.mp hb with hb | hb
      · subst hb; omega
      · exact hall b hb

theorem kb_step_id (l : List Char) (hhead : (pyStrip l).headD ' ' ≠ '[')
    (hmal : kb_skippable l = true) (st : Bool × List (List Char × List Char × Int)) :
    kb_step st l = Except.ok st := by
  obtain ⟨b, acc⟩ := st
  simp only [kb_skippable, Bool.or_eq_true, Bool.not_eq_true', decide_eq_true_eq] at hmal
  simp only [kb_step]
  have h1 : pyStrip l ≠ String.toList "[KEY]" := by
    intro he
    rw [he] at hhead
    exact hhead rfl
  rw [if_neg h1, if_neg hhead]
  by_cases h2 : ¬(b = true ∧ (pyStrip l).headD ' ' = 'K')
  · rw [if_pos h2]
  · rw [if_neg h2]
    by_cases h3 : (pyStrip l).contains '=' = false
    · rw [if_pos h3]
    · rw [if_neg h3]
      have hlt : ((((pyStrip l).dropWhile (fun c => ¬c = '=')).drop 1).splitOn ',').length < 8 := by
        rcases hmal with h | h
        · exact absurd h h3
        · exact h
      rw [if_neg (by omega)]

theorem kb_foldlM_append (xs ys : List (List Char)) :
    ∀ st : Bool × List (List Char × List Char × Int),
      List.foldlM kb_step st (xs ++ ys) =
        (List.foldlM kb_step st xs).bind fun st2 => List.foldlM kb_step st2 ys := by
  induction xs with
  | nil => intro st; rfl
  | cons x xs ih =>
    intro st
    rw [List.cons_append, List.foldlM_cons, List.foldlM_cons]
    cases h : kb_step st x with
    | error e => rfl
    | ok st2 => exact ih st2

/-! ### Claim theorems -/

/-- C1: for the report at position 0, reassembly classifies the header by
fixed byte positions: if `byte[3] = 0x01` and `byte[4] = 0xf8` the first 5
bytes are header and the payload is `bytes[5:]`; else if `byte[3] = 0xf8`
the first 4 bytes are header and the payload is `bytes[4:]`; in every other
case it emits a diagnostic (the unexpected leading bytes) and falls back to
a 3-byte header with payload `bytes[3:]`. -/
theorem c1_buffer0_header_variants (b0 : List Nat) (rest : List (List Nat)) :
    (b0.getD 3 0 = 0x01 ∧ b0.getD 4 0 = 0xf8 →
      reconstruct_data (b0 :: rest) =
        (b0.drop 5 ++ (rest.map (fun b => b.drop 3)).flatten, []))
    ∧ (¬(b0.getD 3 0 = 0x01 ∧ b0.getD 4 0 = 0xf8) → b0.getD 3 0 = 0xf8 →
      reconstruct_data (b0 :: rest) =
        (b0.drop 4 ++ (rest.map (fun b => b.drop 3)).flatten, []))
    ∧ (¬(b0.getD 3 0 = 0x01 ∧ b0.getD 4 0 = 0xf8) → b0.getD 3 0 ≠ 0xf8 →
      reconstruct_data (b0 :: rest) =
        (b0.drop 3 ++ (rest.map (fun b => b.drop 3)).flatten, [b0.take 5])) := by
  have hgo := reconstruct_go_pos rest 1 one_ne_zero
  refine ⟨?_, ?_, ?_⟩
  · intro h
    have hl : header_len 0 b0 = 5 := by
      unfold header_len
      rw [if_pos rfl, if_pos h]
    have hd : report_diag 0 b0 = [] := by
      unfold report_diag
      rw [if_neg (fun hc => hc.2.1 h)]
    simp only [reconstruct_data, reconstruct_go, report_payload, hl, hd, Nat.zero_add,
      hgo, List.append_nil, List.nil_append]
  · intro hn h2
    have hl : header_len 0 b0 = 4 := by
      unfold header_len
      rw [if_pos rfl, if_neg hn, if_pos h2]
    have hd : report_diag 0 b0 = [] := by
      unfold report_diag
      rw [if_neg (fun hc => hc.2.2 h2)]
    simp only [reconstruct_data, reconstruct_go, report_payload, hl, hd, Nat.zero_add,
      hgo, List.append_nil, List.nil_append]
  · intro hn h3
    have hl : header_len 0 b0 = 3 := by
      unfold header_len
      rw [if_pos rfl, if_neg hn, if_neg h3]
    have hd : report_diag 0 b0 = [b0.take 5] := by
      unfold report_diag
      rw [if_pos ⟨rfl, hn, h3⟩]
    simp only [reconstruct_data, reconstruct_go, report_payload, hl, hd, Nat.zero_add,
      hgo, List.append_nil, List.nil_append]

/-- Witness for C1 at concrete inputs: one report per branch shape. -/
theorem c1_buffer0_header_variants_witness :
    reconstruct_data [[0, 0, 0, 0x01, 0xf8, 7], [1, 2, 3, 4, 5]] = ([7, 4, 5], []) := by
  have h := (c1_buffer0_header_variants [0, 0, 0, 0x01, 0xf8, 7] [[1, 2, 3, 4, 5]]).1
    (by constructor <;> rfl)
  simpa using h

/-- C2: for every report at positions 1 through 8, reassembly strips exactly
the first 3 bytes as header, and the output blob is exactly the
concatenation of all per-report payloads in report-position order, with no
byte reordering or deduplication. -/
theorem c2_tail_reports_concat (b0 b1 b2 b3 b4 b5 b6 b7 b8 : List Nat) :
    (reconstruct_data [b0, b1, b2, b3, b4, b5, b6, b7, b8]).1 =
      report_payload 0 b0 ++ (b1.drop 3 ++ (b2.drop 3 ++ (b3.drop 3 ++ (b4.drop 3 ++
        (b5.drop 3 ++ (b6.drop 3 ++ (b7.drop 3 ++ b8.drop 3))))))) := by
  simp [reconstruct_data, reconstruct_go, report_payload, header_len]

/-- C3: for any 9 reports of 65 bytes each, the length of the reassembled
blob equals the sum over all 9 reports of (65 minus that report's header
length); positions 1 through 8 use the 3-byte header. -/
theorem c3_blob_length_sum (b0 b1 b2 b3 b4 b5 b6 b7 b8 : List Nat)
    (h0 : b0.length = 65) (h1 : b1.length = 65) (h2 : b2.length = 65)
    (h3 : b3.length = 65) (h4 : b4.length = 65) (h5 : b5.length = 65)
    (h6 : b6.length = 65) (h7 : b7.length = 65) (h8 : b8.length = 65) :
    (reconstruct_data [b0, b1, b2, b3, b4, b5, b6, b7, b8]).1.length =
      (65 - header_len 0 b0) + (65 - header_len 1 b1) + (65 - header_len 2 b2) +
      (65 - header_len 3 b3) + (65 - header_len 4 b4) + (65 - header_len 5 b5) +
      (65 - header_len 6 b6) + (65 - header_len 7 b7) + (65 - header_len 8 b8) := by
  have e1 : header_len 1 b1 = 3 := rfl
  have e2 : header_len 2 b2 = 3 := rfl
  have e3 : header_len 3 b3 = 3 := rfl
  have e4 : header_len 4 b4 = 3 := rfl
  have e5 : header_len 5 b5 = 3 := rfl
  have e6 : header_len 6 b6 = 3 := rfl
  have e7 : header_len 7 b7 = 3 := rfl
  have e8 : header_len 8 b8 = 3 := rfl
  simp only [reconstruct_data, reconstruct_go, report_payload, e1, e2, e3, e4, e5, e6,
    e7, e8, List.length_append, List.length_drop, List.append_nil, h0, h1, h2, h3, h4,
    h5, h6, h7, h8]

/-- Witness for C3 at concrete 65-byte reports. -/
theorem c3_blob_length_sum_witness :
    (reconstruct_data [List.replicate 65 1, List.replicate 65 2, List.replicate 65 3,
      List.replicate 65 4, List.replicate 65 5, List.replicate 65 6,
      List.replicate 65 7, List.replicate 65 8, List.replicate 65 9]).1.length =
      (65 - header_len 0 (List.replicate 65 1)) + 62 + 62 + 62 + 62 + 62 + 62 + 62 + 62 := by
  have h := c3_blob_length_sum (List.replicate 65 1) (List.replicate 65 2)
    (List.replicate 65 3) (List.replicate 65 4) (List.replicate 65 5)
    (List.replicate 65 6) (List.replicate 65 7) (List.replicate 65 8)
    (List.replicate 65 9) (by simp) (by simp) (by simp) (by simp) (by simp)
    (by simp) (by simp) (by simp) (by simp)
  rw [h]
  rfl

/-- C4: for every blob and every non-negative slot index, the extractor
returns `none` exactly when `(index + 1) * 4 > length blob`, and otherwise
returns the 32-bit value composed from the 4 bytes at offset `index * 4`
(below `2 ^ 32` whenever the blob holds bytes); in particular
`index = length / 4 - 1` succeeds when the blob holds at least one full
group, and an index whose 4-byte window would overrun the blob fails. -/
theorem c4_extract_range_guard (data : List Nat) (i : Nat) :
    (get_firmware_code data i = none ↔ (i + 1) * 4 > data.length)
    ∧ ((i + 1) * 4 ≤ data.length →
        get_firmware_code data i =
          some ((data.getD (i * 4) 0) <<< 24 ||| (data.getD (i * 4 + 1) 0) <<< 16 |||
            (data.getD (i * 4 + 2) 0) <<< 8 ||| data.getD (i * 4 + 3) 0))
    ∧ ((∀ b ∈ data, b < 256) → ∀ v, get_firmware_code data i = some v → v < 2 ^ 32)
    ∧ (4 ≤ data.length → get_firmware_code data (data.length / 4 - 1) ≠ none) := by
  have hiff : ∀ j : Nat, (get_firmware_code data j = none ↔ (j + 1) * 4 > data.length) := by
    intro j
    unfold get_firmware_code
    split
    · simp; omega
    · simp; omega
  refine ⟨hiff i, ?_, ?_, ?_⟩
  · intro hle
    unfold get_firmware_code
    rw [if_neg (by omega)]
  · intro hb v hv
    revert hv
    unfold get_firmware_code
    split
    · intro hv; cases hv
    · intro hv
      have hv' := Option.some.inj hv
      have p24 : (2 : Nat) ^ 24 = 16777216 := by norm_num
      have p16 : (2 : Nat) ^ 16 = 65536 := by norm_num
      have p8 : (2 : Nat) ^ 8 = 256 := by norm_num
      have p32 : (2 : Nat) ^ 32 = 4294967296 := by norm_num
      have s0 : data.getD (i * 4) 0 <<< 24 < 2 ^ 32 := by
        rw [Nat.shiftLeft_eq, p24, p32]
        have := getD_lt_of_all data hb (i * 4)
        omega
      have s1 : data.getD (i * 4 + 1) 0 <<< 16 < 2 ^ 32 := by
        rw [Nat.shiftLeft_eq, p16, p32]
        have := getD_lt_of_all data hb (i * 4 + 1)
        omega
      have s2 : data.getD (i * 4 + 2) 0 <<< 8 < 2 ^ 32 := by
        rw [Nat.shiftLeft_eq, p8, p32]
        have := getD_lt_of_all data hb (i * 4 + 2)
        omega
      have s3 : data.getD (i * 4 + 3) 0 < 2 ^ 32 := by
        rw [p32]
        have := getD_lt_of_all data hb (i * 4 + 3)
        omega
      rw [← hv']
      exact lor_lt_pow _ _ 32 (lor_lt_pow _ _ 32 (lor_lt_pow _ _ 32 s0 s1) s2) s3
  · intro h4
    intro hnone
    have := (hiff (data.length / 4 - 1)).mp hnone
    omega

/-- Witness for C4 on the 5-byte blob `12 34 56 78 09`: slot 0 succeeds with
the big-endian value, slot 1 overruns and returns `none`, the returned value
is below `2 ^ 32`, and the boundary index `length / 4 - 1` succeeds. -/
theorem c4_extract_range_guard_witness :
    get_firmware_code [0x12, 0x34, 0x56, 0x78, 9] 0 = some 0x12345678
    ∧ get_firmware_code [0x12, 0x34, 0x56, 0x78, 9] 1 = none
    ∧ 0x12345678 < 2 ^ 32
    ∧ get_firmware_code [0x12, 0x34, 0x56, 0x78, 9] (5 / 4 - 1) ≠ none := by
  have h := c4_extract_range_guard [0x12, 0x34, 0x56, 0x78, 9] 0
  have h1 := c4_extract_range_guard [0x12, 0x34, 0x56, 0x78, 9] 1
  refine ⟨?_, ?_, ?_, ?_⟩
  · have he := h.2.1 (by decide)
    rw [he]
    decide
  · exact h1.1.mpr (by decide)
  · exact h.2.2.1 (by decide) 0x12345678 (by decide)
  · exact h.2.2.2 (by decide)

/-- C5 counterexample: the source extractor is not parameterized by byte
order — no choice of `ByteOrder` argument to the specification's extractor
reproduces it on every input, because the little-endian reading disagrees
with the code on the blob `01 02 03 04` at slot 0. -/
theorem c5_byte_order_param_cex :
    ¬∀ order : ByteOrder,
      get_firmware_code [1, 2, 3, 4] 0 = extract_spec order [1, 2, 3, 4] 0 := by
  intro h
  exact absurd (h ByteOrder.little) (by decide)

/-- C5 amended: the extractor composes the 4 bytes at the slot's offset into
an unsigned 32-bit integer in big-endian order only — byte 0 is the most
significant octet; it coincides everywhere with the specification's extractor
fixed at big-endian, and no byte-order parameter exists in the code. -/
theorem c5_big_endian_composition (blob : List Nat) (index : Nat) :
    get_firmware_code blob index = extract_spec ByteOrder.big blob index := rfl

set_option maxRecDepth 8192 in
/-- C6: on the end-to-end scenario input the reassembled blob has length
`60 + 8 * 62 = 556`; extracting slot 0 yields the first four filler bytes
composed most-significant-byte first (`0x11223344`); extracting slot 200
(offset 800) returns `none`. -/
theorem c6_end_to_end_scenario :
    (reconstruct_data scenario_buffers).1.length = 556
    ∧ get_firmware_code (reconstruct_data scenario_buffers).1 0 = some 0x11223344
    ∧ get_firmware_code (reconstruct_data scenario_buffers).1 200 = none := by
  refine ⟨by decide, by decide, by decide⟩

/-- C7 counterexample: a `[KEY]`-section key line with 8 comma-separated
fields whose bIndex field is not a valid integer (`K1=a,b,c,d,e,f,g,x`) is
not silently skipped — `int(parts[7])` raises and the failure propagates out
of the catalog loader. -/
theorem c7_catalog_int_failure_cex :
    parse_kb_ini [String.toList "[KEY]", String.toList "K1=a,b,c,d,e,f,g,x"] =
      Except.error () := rfl

/-- C7 amended: a malformed or incomplete catalog line — one that is not a
section header (its stripped text does not start with `[`) and either lacks
`=` or has fewer than 8 comma-separated fields — is silently skipped amid
any surrounding catalog: deleting it changes nothing, records from the other
lines included, and it never causes a propagated failure.  Moreover a record
is produced only at a line processed inside the `[KEY]` section (flag true),
starting with `K`, with at least 8 fields — every other line leaves the
record list unchanged or fails.  (A key line with at least 8 fields whose
bIndex field is not a valid integer does propagate a failure: see the
counterexample.) -/
theorem c7_catalog_skip_malformed :
    (∀ (before after : List (List Char)) (l : List Char),
      (pyStrip l).headD ' ' ≠ '[' → kb_skippable l = true →
      parse_kb_ini (before ++ l :: after) = parse_kb_ini (before ++ after))
    ∧ (∀ (b b2 : Bool) (acc acc2 : List (List Char × List Char × Int)) (l : List Char),
      kb_step (b, acc) l = Except.ok (b2, acc2) → acc2 ≠ acc →
      b = true ∧ (pyStrip l).headD ' ' = 'K' ∧
        8 ≤ ((((pyStrip l).dropWhile (fun c => ¬c = '=')).drop 1).splitOn ',').length ∧
        ∃ r, acc2 = acc ++ [r]) := by
  constructor
  · intro before after l hhead hmal
    have hid := kb_step_id l hhead hmal
    unfold parse_kb_ini
    rw [kb_foldlM_append, kb_foldlM_append]
    cases hfb : List.foldlM kb_step (false, []) before with
    | error e => rfl
    | ok st =>
      show (List.foldlM kb_step st (l :: after)).map (fun st2 => st2.2) =
        (List.foldlM kb_step st after).map (fun st2 => st2.2)
      rw [List.foldlM_cons, hid st]
      rfl
  · intro b b2 acc acc2 l hstep hne
    simp only [kb_step] at hstep
    by_cases h1 : pyStrip l = String.toList "[KEY]"
    · rw [if_pos h1, Except.ok.injEq, Prod.mk.injEq] at hstep
      exact absurd hstep.2.symm hne
    · rw [if_neg h1] at hstep
      by_cases hbr : (pyStrip l).headD ' ' = '['
      · rw [if_pos hbr, if_pos (by simp)] at hstep
        rw [Except.ok.injEq, Prod.mk.injEq] at hstep
        exact absurd hstep.2.symm hne
      · rw [if_neg hbr] at hstep
        by_cases h2 : ¬(b = true ∧ (pyStrip l).headD ' ' = 'K')
        · rw [if_pos h2, Except.ok.injEq, Prod.mk.injEq] at hstep
          exact absurd hstep.2.symm hne
        · rw [if_neg h2] at hstep
          by_cases h3 : (pyStrip l).contains '=' = false
          · rw [if_pos h3, Except.ok.injEq, Prod.mk.injEq] at hstep
            exact absurd hstep.2.symm hne
          · rw [if_neg h3] at hstep
            by_cases h4 :
                8 ≤ ((((pyStrip l).dropWhile (fun c => ¬c = '=')).drop 1).splitOn ',').length
            · rw [if_pos h4] at hstep
              cases hp :
                  pyInt (((((pyStrip l).dropWhile (fun c => ¬c = '=')).drop 1).splitOn ',').getD 7 []) with
              | none =>
                simp only [hp] at hstep
                exact Except.noConfusion hstep
              | some r =>
                simp only [hp] at hstep
                rw [Except.ok.injEq, Prod.mk.injEq] at hstep
                have h2' := not_not.mp h2
                exact ⟨h2'.1, h2'.2, h4, ⟨_, hstep.2.symm⟩⟩
            · rw [if_neg h4, Except.ok.injEq, Prod.mk.injEq] at hstep
              exact absurd hstep.2.symm hne

/-- Witness for C7's amended theorem: the incomplete key line `K2=1,2,3` is
dropped from a catalog whose neighbours `K1` and `K3` do produce records,
leaving the loader's result unchanged; and a concrete record-producing step
satisfies the only-`[KEY]`-section-with-8-fields characterization. -/
theorem c7_catalog_skip_malformed_witness :
    parse_kb_ini [String.toList "[KEY]", String.toList "K1=0,0,10,10,0,0x41,0,5",
        String.toList "K2=1,2,3", String.toList "K3=0,0,1,1,0,0x42,0,7"] =
      parse_kb_ini [String.toList "[KEY]", String.toList "K1=0,0,10,10,0,0x41,0,5",
        String.toList "K3=0,0,1,1,0,0x42,0,7"]
    ∧ (true = true ∧
        (pyStrip (String.toList "K1=0,0,10,10,0,0x41,0,5")).headD ' ' = 'K' ∧
        8 ≤ (((((pyStrip (String.toList "K1=0,0,10,10,0,0x41,0,5")).dropWhile
          (fun c => ¬c = '=')).drop 1).splitOn ',').length) ∧
        ∃ r, [(String.toList "K1", String.toList "0x41", (5 : Int))] =
          ([] : List (List Char × List Char × Int)) ++ [r]) := by
  constructor
  · exact c7_catalog_skip_malformed.1
      [String.toList "[KEY]", String.toList "K1=0,0,10,10,0,0x41,0,5"]
      [String.toList "K3=0,0,1,1,0,0x42,0,7"] (String.toList "K2=1,2,3")
      (by decide) (by decide)
  · exact c7_catalog_skip_malformed.2 true true []
      [(String.toList "K1", String.toList "0x41", (5 : Int))]
      (String.toList "K1=0,0,10,10,0,0x41,0,5") (by rfl) (by decide)

/-- C9 counterexample: the capture parser does not enforce 65-byte reports —
the qualifying line `0a09` (4 hex characters) is decoded into a 2-byte
report, which parsing returns without error. -/
theorem c9_report_length_cex :
    parse_buffers [['0', 'a', '0', '9']] = Except.ok [[0x0a, 0x09]]
    ∧ ([(0x0a : Nat), 0x09]).length ≠ 65 := by
  refine ⟨rfl, by decide⟩

/-- C9 amended: capture parsing selects exactly the cleaned lines beginning
with hex `0a09`, hex-decodes exactly the first 9 such lines (a count other
than 9 is non-fatal: it proceeds with up to the first 9 available), and
every decoded report is 65 bytes provided its line has 130 hex characters —
a length the parser itself does not enforce. -/
theorem c9_capture_selection (ls : List (List Char))
    (h : ∀ l ∈ buffer_lines ls, l.length = 130 ∧ ∀ c ∈ l, (hexDigitVal c).isSome) :
    ∃ bufs, parse_buffers ls = Except.ok bufs
      ∧ hexDecodeAll ((buffer_lines ls).take 9) = some bufs
      ∧ bufs.length = min (buffer_lines ls).length 9
      ∧ ∀ b ∈ bufs, b.length = 65 := by
  obtain ⟨bufs, hm, hlen, hall⟩ :=
    hexDecodeAll_ok ((buffer_lines ls).take 9)
      (fun l hl => h l (List.mem_of_mem_take hl))
  refine ⟨bufs, ?_, hm, ?_, hall⟩
  · simp [parse_buffers, hm]
  · rw [hlen, List.length_take, Nat.min_comm]

set_option maxRecDepth 8192 in
/-- Witness for C9's amended theorem on a single 130-hex-character line. -/
theorem c9_capture_selection_witness :
    ∃ bufs,
      parse_buffers [['0', 'a', '0', '9'] ++ List.replicate 126 '0'] = Except.ok bufs
      ∧ hexDecodeAll ((buffer_lines [['0', 'a', '0', '9'] ++ List.replicate 126 '0']).take 9) =
          some bufs
      ∧ bufs.length =
          min (buffer_lines [['0', 'a', '0', '9'] ++ List.replicate 126 '0']).length 9
      ∧ ∀ b ∈ bufs, b.length = 65 :=
  c9_capture_selection [['0', 'a', '0', '9'] ++ List.replicate 126 '0'] (by decide)

/-- C8: reassembly is order-preserving in a frame sense — for two input
sequences of 9 reports (65 bytes each) that differ only by swapping the
reports at two non-zero positions, the output blobs differ only in the byte
ranges corresponding to those two positions' payloads: the segments before,
between and after the swapped payloads are identical lists at identical
offsets (the swapped payloads have equal length). -/
theorem c8_swap_frame_effect (pre mid post : List (List Nat)) (x y : List Nat)
    (hpre : pre ≠ [])
    (hlen : (pre ++ [x] ++ mid ++ [y] ++ post).length = 9)
    (hall : ∀ b ∈ pre ++ [x] ++ mid ++ [y] ++ post, b.length = 65) :
    ∃ A B C : List Nat,
      (reconstruct_data (pre ++ [x] ++ mid ++ [y] ++ post)).1 =
        A ++ (x.drop 3 ++ (B ++ (y.drop 3 ++ C)))
      ∧ (reconstruct_data (pre ++ [y] ++ mid ++ [x] ++ post)).1 =
        A ++ (y.drop 3 ++ (B ++ (x.drop 3 ++ C)))
      ∧ (x.drop 3).length = (y.drop 3).length := by
  rcases pre with _ | ⟨p, pre'⟩
  · exact absurd rfl hpre
  refine ⟨report_payload 0 p ++ (pre'.map (fun b => b.drop 3)).flatten,
    (mid.map (fun b => b.drop 3)).flatten,
    (post.map (fun b => b.drop 3)).flatten, ?_, ?_, ?_⟩
  · have h1 : (p :: pre') ++ [x] ++ mid ++ [y] ++ post =
        p :: (pre' ++ ([x] ++ (mid ++ ([y] ++ post)))) := by simp
    rw [h1]
    simp only [reconstruct_data, reconstruct_go, Nat.zero_add]
    rw [reconstruct_go_pos _ 1 one_ne_zero]
    simp [List.map_append, List.flatten_append, List.append_assoc]
  · have h1 : (p :: pre') ++ [y] ++ mid ++ [x] ++ post =
        p :: (pre' ++ ([y] ++ (mid ++ ([x] ++ post)))) := by simp
    rw [h1]
    simp only [reconstruct_data, reconstruct_go, Nat.zero_add]
    rw [reconstruct_go_pos _ 1 one_ne_zero]
    simp [List.map_append, List.flatten_append, List.append_assoc]
  · have hx : x ∈ (p :: pre') ++ [x] ++ mid ++ [y] ++ post := by simp
    have hy : y ∈ (p :: pre') ++ [x] ++ mid ++ [y] ++ post := by simp
    rw [List.length_drop, List.length_drop, hall x hx, hall y hy]

/-- Witness for C8: swapping the reports at positions 1 and 2 of a concrete
9-report capture changes only the two corresponding payload segments. -/
theorem c8_swap_frame_effect_witness :
    ∃ A B C : List Nat,
      (reconstruct_data ([[10, 9, 1, 248] ++ List.replicate 61 0] ++
          [[10, 9, 2] ++ List.replicate 62 1] ++ [] ++ [[10, 9, 3] ++ List.replicate 62 2] ++
          [[10, 9, 4] ++ List.replicate 62 3, [10, 9, 5] ++ List.replicate 62 4,
           [10, 9, 6] ++ List.replicate 62 5, [10, 9, 7] ++ List.replicate 62 6,
           [10, 9, 8] ++ List.replicate 62 7, [10, 9, 9] ++ List.replicate 62 8])).1 =
        A ++ (([10, 9, 2] ++ List.replicate 62 1).drop 3 ++
          (B ++ (([10, 9, 3] ++ List.replicate 62 2).drop 3 ++ C)))
      ∧ (reconstruct_data ([[10, 9, 1, 248] ++ List.replicate 61 0] ++
          [[10, 9, 3] ++ List.replicate 62 2] ++ [] ++ [[10, 9, 2] ++ List.replicate 62 1] ++
          [[10, 9, 4] ++ List.replicate 62 3, [10, 9, 5] ++ List.replicate 62 4,
           [10, 9, 6] ++ List.replicate 62 5, [10, 9, 7] ++ List.replicate 62 6,
           [10, 9, 8] ++ List.replicate 62 7, [10, 9, 9] ++ List.replicate 62 8])).1 =
        A ++ (([10, 9, 3] ++ List.replicate 62 2).drop 3 ++
          (B ++ (([10, 9, 2] ++ List.replicate 62 1).drop 3 ++ C)))
      ∧ (([10, 9, 2] ++ List.replicate 62 1).drop 3).length =
          (([10, 9, 3] ++ List.replicate 62 2).drop 3).length :=
  c8_swap_frame_effect [[10, 9, 1, 248] ++ List.replicate 61 0] []
    [[10, 9, 4] ++ List.replicate 62 3, [10, 9, 5] ++ List.replicate 62 4,
     [10, 9, 6] ++ List.replicate 62 5, [10, 9, 7] ++ List.replicate 62 6,
     [10, 9, 8] ++ List.replicate 62 7, [10, 9, 9] ++ List.replicate 62 8]
    ([10, 9, 2] ++ List.replicate 62 1) ([10, 9, 3] ++ List.replicate 62 2)
    (by decide) (by decide) (by decide)

/-- C10: the extractor's out-of-range guard covers only non-negative slot
indices — for every blob and every non-negative index the Python-index
version is total and agrees with the plain extractor (so it returns `none`
or a defined value), but at index `-1` the guard `offset + 4 > len(data)` is
not triggered, the slice `data[-4:0]` is empty, and the subsequent byte
subscript raises. -/
theorem c10_extract_total_nonneg (data : List Nat) (i : Int) :
    (0 ≤ i → get_firmware_code_int data i = Except.ok (get_firmware_code data i.toNat))
    ∧ get_firmware_code_int data (-1) = Except.error () := by
  constructor
  · intro h
    obtain ⟨n, rfl⟩ : ∃ n : Nat, i = (n : Int) := ⟨i.toNat, (Int.toNat_of_nonneg h).symm⟩
    have ht : ((n : Int)).toNat = n := by omega
    rw [ht]
    by_cases hc : n * 4 + 4 > data.length
    · have hci : (n : Int) * 4 + 4 > (data.length : Int) := by exact_mod_cast hc
      unfold get_firmware_code_int get_firmware_code
      rw [if_pos hci, if_pos hc]
    · have hci : ¬((n : Int) * 4 + 4 > (data.length : Int)) := by omega
      unfold get_firmware_code_int get_firmware_code
      rw [if_neg hci, if_neg hc]
      have hsl : pySlice data ((n : Int) * 4) ((n : Int) * 4 + 4) =
          [data.getD (n * 4) 0, data.getD (n * 4 + 1) 0,
           data.getD (n * 4 + 2) 0, data.getD (n * 4 + 3) 0] := by
        unfold pySlice pySliceIdx
        rw [if_neg (show ¬((n : Int) * 4 + 4 < 0) by omega),
          if_neg (show ¬((n : Int) * 4 < 0) by omega)]
        have e2 : ((n : Int) * 4 + 4).toNat = n * 4 + 4 := by omega
        have e1 : ((n : Int) * 4).toNat = n * 4 := by omega
        rw [e2, e1, Nat.min_eq_left (by omega), Nat.min_eq_left (by omega)]
        exact slice_four data (n * 4) (by omega)
      rw [hsl]
  · have hg : ¬((-1 : Int) * 4 + 4 > (data.length : Int)) := by omega
    unfold get_firmware_code_int
    rw [if_neg hg]
    have hsl : pySlice data ((-1 : Int) * 4) ((-1 : Int) * 4 + 4) = [] := by
      unfold pySlice pySliceIdx
      have e : ((-1 : Int) * 4 + 4) = 0 := by omega
      rw [e]
      simp
    rw [hsl]

/-- Witness for C10 on the blob `01 02 03 04`: index 0 is total and agrees
with the plain extractor, index -1 raises. -/
theorem c10_extract_total_nonneg_witness :
    get_firmware_code_int [1, 2, 3, 4] 0 = Except.ok (some 0x01020304)
    ∧ get_firmware_code_int [1, 2, 3, 4] (-1) = Except.error () := by
  have h := c10_extract_total_nonneg [1, 2, 3, 4] 0
  refine ⟨?_, h.2⟩
  have he := h.1 (by decide)
  rw [he]
  rfl
